import Mathlib

/-!
Formal model of the CatSeek 1-bit engine and its GGUF-style binary writer,
translated from `catseek_1bit.py` (class `CatSeek1BitModel`, plus the reset
performed by `CatSeekUI.clear_chat`).  Bytes are modelled as `List Nat`
(each element < 256 by construction), Python ints as `Int`/`Nat`, text as
`List Char` (one element per Unicode code point, matching Python `str`),
and fallible operations (dict lookups that may raise `KeyError`,
`struct.pack` range errors, modulo by zero) return `Option`.
-/

namespace CatSeek

/-- Bitwise xor of mathematical integers with Python semantics
(infinite twos-complement; `-x = ~(x-1)`). -/
def pyXor (a b : Int) : Int :=
  if 0 ≤ a then
    if 0 ≤ b then Int.ofNat (Nat.xor a.toNat b.toNat)
    else -(Int.ofNat (Nat.xor a.toNat (-b - 1).toNat)) - 1
  else
    if 0 ≤ b then -(Int.ofNat (Nat.xor (-a - 1).toNat b.toNat)) - 1
    else Int.ofNat (Nat.xor (-a - 1).toNat (-b - 1).toNat)

/-- Whitespace recognised by Python `str.split()`: the characters for
which CPython's `Py_UNICODE_ISSPACE` holds, namely U+0009-U+000D (tab,
LF, VT, FF, CR), U+001C-U+001F, U+0020, U+0085 (NEL), U+00A0 (NBSP),
U+1680 (Ogham space mark), U+2000-U+200A (the Zs spaces), U+2028 (line
separator), U+2029 (paragraph separator), U+202F, U+205F and U+3000. -/
def isPySpace (c : Char) : Bool :=
  let n := c.toNat
  (9 ≤ n && n ≤ 13) || (28 ≤ n && n ≤ 32) || n = 133 || n = 160 ||
  n = 5760 || (8192 ≤ n && n ≤ 8202) || n = 8232 || n = 8233 ||
  n = 8239 || n = 8287 || n = 12288

/-- Helper for `splitCount`: counts maximal runs of non-whitespace
characters; the flag records whether we are inside a run. -/
def countTokens : List Char → Bool → Nat
  | [], _ => 0
  | c :: rest, inTok =>
    if isPySpace c then countTokens rest false
    else (if inTok then 0 else 1) + countTokens rest true

/-- Number of tokens produced by Python `text.split()` (maximal
whitespace-separated runs, leading and trailing whitespace ignored). -/
def splitCount (t : List Char) : Nat := countTokens t false

/-- Engine state of `CatSeek1BitModel`: the mode flag `bit_state`, the
token counter, the named weight tensors, and the response pools keyed by
mode (a Python dict, modelled as an association list preserving insertion
order).  Fields of the Python object that no modelled operation ever
reads (`quantization_bits`, `model_size_mb`, `thinking_phrases`) are
omitted. -/
structure Model where
  bit_state : Nat
  token_count : Nat
  weights : List (String × List Int)
  responses : List (Nat × List String)
deriving DecidableEq

/-- The four weight tensors fixed by `CatSeek1BitModel.__init__`. -/
def initWeights : List (String × List Int) :=
  [("embed", [1, -1, 1, -1, 1, -1, 1, -1]),
   ("attn",  [1, 1, -1, -1, 1, 1, -1, -1]),
   ("ffn",   [-1, 1, -1, 1, -1, 1, -1, 1]),
   ("out",   [1, -1, -1, 1, 1, -1, -1, 1])]

/-- The two response pools fixed by `CatSeek1BitModel.__init__`
(pool 0 is analytical, pool 1 action-oriented; five entries each). -/
def initResponses : List (Nat × List String) :=
  [(0, ["Let me analyze that systematically. 🔍",
        "Breaking this down step by step... 📊",
        "Here\x27s the logical approach: 🧠",
        "Processing with precision. ⚡",
        "Quantized inference complete. 💎"]),
   (1, ["Execute immediately. Let\x27s ship it. 🚀",
        "Clear path forward — taking action. ⚡",
        "Optimized solution incoming. 🎯",
        "1-bit precision, maximum efficiency. 💪",
        "Compressed wisdom, expanded results. 🌟"])]

/-- A freshly constructed engine: mode 0, token counter 0, fixed
weights and response pools. -/
def initModel : Model :=
  { bit_state := 0, token_count := 0,
    weights := initWeights, responses := initResponses }

/-- `CatSeek1BitModel.quantize_input`: maps each character to `1` when
its code point is odd (`ord(c) % 2` truthy) and `-1` otherwise. -/
def quantize_input (text : List Char) : List Int :=
  text.map (fun c => if c.toNat % 2 ≠ 0 then 1 else -1)

/-- Loop body of `CatSeek1BitModel.forward_pass`: for each element `q`
of the quantized input at position `i`, fetch `w = weights["embed"][i %
len]` (failing like the Python `KeyError` / modulo-by-zero would) and
accumulate `acc ^= (q * w + 1) // 2` with Python floor division; at the
end return `acc % 2` with Python (Euclidean) modulo. -/
def fpLoop (ws : List (String × List Int)) (i : Nat) (acc : Int) :
    List Int → Option Int
  | [] => some (Int.emod acc 2)
  | q :: rest =>
    match (ws.lookup "embed").bind (fun e => e.get? (i % e.length)) with
    | none => none
    | some w => fpLoop ws (i + 1) (pyXor acc (Int.ediv (q * w + 1) 2)) rest

/-- `CatSeek1BitModel.forward_pass` on a model state. -/
def forward_pass (m : Model) (q : List Int) : Option Int :=
  fpLoop m.weights 0 0 q

/-- The tuple returned by `CatSeek1BitModel.generate`, together with the
successor engine state (the Python method mutates `self`). -/
structure GenResult where
  response : String
  retMode : Nat
  preview : List Int
  model : Model
deriving DecidableEq

/-- `CatSeek1BitModel.generate`: bump the token counter by the
whitespace-split token count, quantize, run the forward pass (its bit is
computed but unused), select `responses[bit_state][len(text) % len(pool)]`,
flip `bit_state`, and return `(response, bit_state ^ 1, q_input[:8])`
(the xor undoes the flip, so the returned mode is the pre-flip one). -/
def generate (m : Model) (text : List Char) : Option GenResult :=
  let m1 : Model := { m with token_count := m.token_count + splitCount text }
  let q := quantize_input text
  match forward_pass m1 q with
  | none => none
  | some _outputBit =>
    match m1.responses.lookup m1.bit_state with
    | none => none
    | some pool =>
      match pool.get? (text.length % pool.length) with
      | none => none
      | some response =>
        let m2 : Model := { m1 with bit_state := m1.bit_state ^^^ 1 }
        some ⟨response, m2.bit_state ^^^ 1, q.take 8, m2⟩

/-- The engine-state effect of `CatSeekUI.clear_chat` ("new chat"):
sets `bit_state = 0` and `token_count = 0`. -/
def resetModel (m : Model) : Model :=
  { m with bit_state := 0, token_count := 0 }

/-! ## The GGUF-style binary writer (`CatSeek1BitModel.export_gguf`)

File contents are modelled as `List Nat`, one entry per byte written, in
write order.  Each `struct.pack` call becomes an explicit little-endian
byte encoder; the calls that can raise `struct.error` (values out of
range for the format code) return `Option`.  Opening the destination and
`os.path.getsize` are outside the embedding: the returned `size_bytes`
statistic is the length of the byte list the writer produced, which is
what `getsize` reports after a fresh `wb` write. -/

/-- UTF-8 encoding of a single Unicode scalar value. -/
def utf8Bytes (c : Char) : List Nat :=
  let n := c.toNat
  if n < 128 then [n]
  else if n < 2048 then [192 + n / 64, 128 + n % 64]
  else if n < 65536 then [224 + n / 4096, 128 + n / 64 % 64, 128 + n % 64]
  else [240 + n / 262144, 128 + n / 4096 % 64, 128 + n / 64 % 64, 128 + n % 64]

/-- UTF-8 encoding of a character sequence (Python `s.encode("utf-8")`). -/
def strBytes : List Char → List Nat
  | [] => []
  | c :: rest => utf8Bytes c ++ strBytes rest

/-- Little-endian byte rendering of a natural number in `w` bytes. -/
def leBytes : Nat → Nat → List Nat
  | 0, _ => []
  | w + 1, n => n % 256 :: leBytes w (n / 256)

/-- `struct.pack` for the unsigned little-endian format codes (`<B`,
`<I`, `<Q` are widths 1, 4, 8): fails exactly when the value does not
fit, as `struct.error` does. -/
def packUInt (w : Nat) (n : Nat) : Option (List Nat) :=
  if n < 2 ^ (8 * w) then some (leBytes w n) else none

/-- Twos-complement little-endian rendering of a signed 32-bit value. -/
def int32LE (i : Int) : List Nat :=
  leBytes 4 (Int.toNat (Int.emod i (2 ^ 32)))

/-- `struct.pack("<i", ·)`: fails when the value is outside the signed
32-bit range. -/
def packInt32 (i : Int) : Option (List Nat) :=
  if -(2 ^ 31) ≤ i ∧ i < 2 ^ 31 then some (int32LE i) else none

/-- A metadata value: `export_gguf` branches on `isinstance(value, int)`
and treats every other value as a string, so the value domain is a
two-variant tagged union. -/
inductive GGUFValue where
  | vInt (i : Int)
  | vStr (s : String)
deriving DecidableEq

/-- One iteration of the metadata loop of `export_gguf`: key length
(`<Q`), raw UTF-8 key bytes, then type tag 4 (`<I`) and an `<i` value
for integers, or type tag 8 (`<I`), value length (`<Q`) and raw UTF-8
value bytes for strings. -/
def writeMetaEntry (k : String) (v : GGUFValue) : Option (List Nat) := do
  let kb := strBytes k.data
  let klen ← packUInt 8 kb.length
  match v with
  | .vInt i => do
      let vb ← packInt32 i
      pure (klen ++ kb ++ leBytes 4 4 ++ vb)
  | .vStr s => do
      let sb := strBytes s.data
      let slen ← packUInt 8 sb.length
      pure (klen ++ kb ++ leBytes 4 8 ++ slen ++ sb)

/-- The metadata loop of `export_gguf`, in input order. -/
def writeMetadata : List (String × GGUFValue) → Option (List Nat)
  | [] => some []
  | p :: rest => do
      let e ← writeMetaEntry p.1 p.2
      let r ← writeMetadata rest
      pure (e ++ r)

/-- The bit-packing loop of `export_gguf`: `packed |= (1 << i)` for
every position `i` whose weight equals 1, over the whole tensor. -/
def packLoop : Nat → Nat → List Int → Nat
  | _, packed, [] => packed
  | i, packed, w :: rest =>
      packLoop (i + 1) (if w = 1 then packed ||| (1 <<< i) else packed) rest

/-- One iteration of the tensor loop of `export_gguf`: name length
(`<Q`), raw UTF-8 name bytes, then a single packed byte (`<B`) holding
all of the bits set by `packLoop`; like `struct.pack("<B", ·)` this
fails when the packed value exceeds 255 (any `+1` at index 8 or above). -/
def writeTensor (n : String) (ws : List Int) : Option (List Nat) := do
  let nb := strBytes n.data
  let nlen ← packUInt 8 nb.length
  let pb ← packUInt 1 (packLoop 0 0 ws)
  pure (nlen ++ nb ++ pb)

/-- The tensor loop of `export_gguf`, in input order. -/
def writeTensors : List (String × List Int) → Option (List Nat)
  | [] => some []
  | p :: rest => do
      let e ← writeTensor p.1 p.2
      let r ← writeTensors rest
      pure (e ++ r)

/-- The 4-byte magic `b"GGUF"`. -/
def ggufMagic : List Nat := [71, 71, 85, 70]

/-- The version constant written by `export_gguf`. -/
def ggufVersion : Nat := 3

/-- The statistics dictionary returned by `export_gguf` (the constant
`filepath`/`quantization` entries carry no information and are
omitted). -/
structure GGUFStats where
  size_bytes : Nat
  tensors : Nat
  metadata_keys : Nat
deriving DecidableEq

/-- The full writer, parameterized by the metadata entries and tensors
it serializes (the spec calls this `writeModel`): magic, version `<I`,
tensor count `<Q`, metadata count `<Q`, the metadata entries in order,
the tensors in order; returns the bytes and the statistics. -/
def writeModel (md : List (String × GGUFValue)) (ts : List (String × List Int)) :
    Option (List Nat × GGUFStats) := do
  let tc ← packUInt 8 ts.length
  let mc ← packUInt 8 md.length
  let mdB ← writeMetadata md
  let tsB ← writeTensors ts
  let bytes := ggufMagic ++ leBytes 4 ggufVersion ++ tc ++ mc ++ mdB ++ tsB
  pure (bytes, ⟨bytes.length, ts.length, md.length⟩)

/-- The metadata dictionary hard-coded in `export_gguf`, in insertion
order. -/
def catseekMetadata : List (String × GGUFValue) :=
  [("general.architecture", .vStr "catseek"),
   ("general.name", .vStr "CatSeek-1Bit"),
   ("general.quantization_version", .vInt 1),
   ("catseek.bits", .vInt 1),
   ("catseek.context_length", .vInt 2048),
   ("catseek.embedding_length", .vInt 8),
   ("catseek.block_count", .vInt 1),
   ("catseek.attention.head_count", .vInt 1),
   ("catseek.vocab_size", .vInt 256),
   ("tokenizer.ggml.model", .vStr "gpt2"),
   ("quantization.type", .vStr "BitNet-1bit")]

/-- `CatSeek1BitModel.export_gguf` at the model level: serializes the
hard-coded metadata and `self.weights`; the method never assigns to
`self`, so the resulting engine state is returned alongside the bytes
and statistics. -/
def export_gguf (m : Model) : Option (List Nat × GGUFStats × Model) :=
  match writeModel catseekMetadata m.weights with
  | none => none
  | some (bytes, st) => some (bytes, st, m)

/-! ## Specification-side layout

These definitions restate the byte layout the specification describes,
as a direct concatenation of fields, to be compared with the writer
above.  They share only the primitive encoders (`leBytes`, `strBytes`,
`int32LE`) with the writer. -/

/-- Concatenation of a list of byte strings. -/
def bytesConcat : List (List Nat) → List Nat
  | [] => []
  | b :: r => b ++ bytesConcat r

/-- Spec wording for one packed byte: bit `i` is set iff element `i` of
the chunk equals `+1`, bit 0 least significant. -/
def chunkByte : Nat → List Int → Nat
  | _, [] => 0
  | i, w :: rest => (if w = 1 then 2 ^ i else 0) ||| chunkByte (i + 1) rest

/-- Structural worker for `specPackBytes`; the fuel argument only
bounds the recursion depth (one unit per chunk suffices, and the length
of the list is always enough fuel). -/
def specPackAux : Nat → List Int → List Nat
  | _, [] => []
  | 0, _ :: _ => []
  | fuel + 1, w :: rest => chunkByte 0 (w :: rest.take 7) :: specPackAux fuel (rest.drop 7)

/-- Spec wording for a packed tensor body: one packed byte per 8 (or
fewer) elements, elements beyond 8 carried by additional packed bytes. -/
def specPackBytes (ws : List Int) : List Nat :=
  specPackAux ws.length ws

/-- Spec wording for one metadata entry: 8-byte key length, raw UTF-8
key bytes, 4-byte type tag (4 = signed 32-bit integer, 8 = string), then
either a 4-byte signed integer or an 8-byte length plus raw UTF-8 string
bytes; all fields little-endian. -/
def specMetaEntry (k : String) (v : GGUFValue) : List Nat :=
  leBytes 8 (strBytes k.data).length ++ strBytes k.data ++
    match v with
    | .vInt i => leBytes 4 4 ++ int32LE i
    | .vStr s => leBytes 4 8 ++ leBytes 8 (strBytes s.data).length ++ strBytes s.data

/-- Spec wording for one tensor record: 8-byte name length, raw UTF-8
name bytes, then the packed body. -/
def specTensorEntry (n : String) (ws : List Int) : List Nat :=
  leBytes 8 (strBytes n.data).length ++ strBytes n.data ++ specPackBytes ws

/-- Spec wording for the whole file: 4-byte format tag, 4-byte unsigned
version, 8-byte unsigned tensor count, 8-byte unsigned metadata-entry
count, the metadata entries in input order, the tensor records in input
order — and nothing more. -/
def specLayout (md : List (String × GGUFValue)) (ts : List (String × List Int)) :
    List Nat :=
  ggufMagic ++ leBytes 4 ggufVersion ++ leBytes 8 ts.length ++ leBytes 8 md.length ++
    bytesConcat (md.map fun p => specMetaEntry p.1 p.2) ++
    bytesConcat (ts.map fun p => specTensorEntry p.1 p.2)

/-- Range condition a metadata value must satisfy for `struct.pack` to
accept it: integers fit in signed 32 bits, string payloads fit an 8-byte
length field. -/
def valOk : GGUFValue → Bool
  | .vInt i => decide (-(2 ^ 31) ≤ i) && decide (i < 2 ^ 31)
  | .vStr s => decide ((strBytes s.data).length < 2 ^ 64)

/-- The writer preconditions stated by the specification: non-empty
metadata and tensor sequences, unique non-empty keys and names, values
of the two supported kinds (integers within signed 32 bits), tensors of
the fixed 8-element shape of this system, and every length field
representable in 8 bytes. -/
abbrev Preconds (md : List (String × GGUFValue)) (ts : List (String × List Int)) :
    Prop :=
  md ≠ [] ∧ (md.map Prod.fst).Nodup ∧
  (∀ p ∈ md, p.1 ≠ "" ∧ (strBytes p.1.data).length < 2 ^ 64 ∧ valOk p.2 = true) ∧
  ts ≠ [] ∧ (ts.map Prod.fst).Nodup ∧
  (∀ p ∈ ts, p.1 ≠ "" ∧ (strBytes p.1.data).length < 2 ^ 64 ∧ p.2.length = 8) ∧
  md.length < 2 ^ 64 ∧ ts.length < 2 ^ 64

/-- Spec-side selector for the response pool of a mode. -/
def poolOf (b : Nat) : List String :=
  if b = 0 then (initResponses.lookup 0).getD []
  else (initResponses.lookup 1).getD []

/-- Valid (reachable) engine states: the weights and response pools are
the construction-time ones — nothing in the program ever writes those
fields — and the mode flag is 0 or 1. -/
abbrev ValidModel (m : Model) : Prop :=
  m.weights = initWeights ∧ m.responses = initResponses ∧
    (m.bit_state = 0 ∨ m.bit_state = 1)

/-! ## Helper lemmas about the engine -/

/-- Reading an index below the length of a list yields its `getD`
value. -/
theorem get?_eq_some_getD {α : Type} (l : List α) (d : α) {k : Nat}
    (hk : k < l.length) : l.get? k = some (l.getD k d) := by
  rw [List.get?_eq_get hk, List.getD_eq_get l d hk]

/-- The forward-pass loop never fails when the `embed` tensor is present
and non-empty. -/
theorem fpLoop_isSome_of (ws : List (String × List Int)) (e : List Int)
    (he : ws.lookup "embed" = some e) (hne : e ≠ []) :
    ∀ (q : List Int) (i : Nat) (acc : Int), (fpLoop ws i acc q).isSome := by
  intro q
  induction q with
  | nil => intro i acc; simp [fpLoop]
  | cons qv rest ih =>
    intro i acc
    have hlt : i % e.length < e.length :=
      Nat.mod_lt _ (List.length_pos.mpr hne)
    simp only [fpLoop, he, Option.some_bind]
    rw [List.get?_eq_get hlt]
    exact ih (i + 1) _

/-- Whatever acc it starts from, the forward-pass loop returns a value
of the form `a % 2`. -/
theorem fpLoop_emod (ws : List (String × List Int)) :
    ∀ (q : List Int) (i : Nat) (acc b : Int),
      fpLoop ws i acc q = some b → ∃ a : Int, b = Int.emod a 2 := by
  intro q
  induction q with
  | nil =>
    intro i acc b hb
    simp only [fpLoop, Option.some.injEq] at hb
    exact ⟨acc, hb.symm⟩
  | cons qv rest ih =>
    intro i acc b hb
    simp only [fpLoop] at hb
    rcases hw : (ws.lookup "embed").bind (fun e => e.get? (i % e.length)) with _ | w
    · rw [hw] at hb; exact absurd hb (by simp)
    · rw [hw] at hb
      exact ih (i + 1) _ b hb

/-- Whether the forward-pass loop fails depends only on the length of
the quantized input, never on its values or the accumulator. -/
theorem fpLoop_isSome_congr (ws : List (String × List Int)) :
    ∀ (q q' : List Int) (i : Nat) (acc acc' : Int),
      q.length = q'.length →
      (fpLoop ws i acc q).isSome = (fpLoop ws i acc' q').isSome := by
  intro q
  induction q with
  | nil =>
    intro q' i acc acc' hlen
    have : q' = [] := List.length_eq_zero.mp hlen.symm
    subst this; rfl
  | cons qv rest ih =>
    intro q' i acc acc' hlen
    cases q' with
    | nil => simp at hlen
    | cons qv' rest' =>
      simp only [List.length_cons, Nat.succ.injEq] at hlen
      simp only [fpLoop]
      rcases hw : (ws.lookup "embed").bind (fun e => e.get? (i % e.length)) with _ | w
      · rfl
      · exact ih rest' (i + 1) _ _ hlen

/-- Master computation of `generate` on a valid engine state. -/
theorem generate_valid (m : Model) (t : List Char) (h : ValidModel m) :
    generate m t = some
      ⟨(poolOf m.bit_state).getD (t.length % (poolOf m.bit_state).length) "",
       m.bit_state,
       (quantize_input t).take 8,
       { m with token_count := m.token_count + splitCount t,
                bit_state := m.bit_state ^^^ 1 }⟩ := by
  obtain ⟨hw, hr, hb⟩ := h
  have hemb : m.weights.lookup "embed" = some [1, -1, 1, -1, 1, -1, 1, -1] := by
    rw [hw]; rfl
  have hfp : (fpLoop m.weights 0 0 (quantize_input t)).isSome :=
    fpLoop_isSome_of m.weights _ hemb (by simp) (quantize_input t) 0 0
  obtain ⟨bit, hbit⟩ := Option.isSome_iff_exists.mp hfp
  have hk : t.length % 5 < 5 := Nat.mod_lt _ (by norm_num)
  have hl : initResponses.lookup m.bit_state = some (poolOf m.bit_state) := by
    rcases hb with hb | hb <;> rw [hb] <;> rfl
  have hlen5 : (poolOf m.bit_state).length = 5 := by
    rcases hb with hb | hb <;> rw [hb] <;> rfl
  have h5 : t.length % (poolOf m.bit_state).length < (poolOf m.bit_state).length := by
    rw [hlen5]; exact hk
  simp only [generate, forward_pass, hbit, hr, hl]
  rw [get?_eq_some_getD (poolOf m.bit_state) "" h5]
  simp [Nat.xor_assoc]

/-! ## Helper lemmas about the writer -/

/-- The source packing loop is the bitwise or of the accumulator with
the spec-side packed byte. -/
theorem packLoop_eq_lor (ws : List Int) :
    ∀ (i acc : Nat), packLoop i acc ws = acc ||| chunkByte i ws := by
  induction ws with
  | nil => intro i acc; simp [packLoop, chunkByte]
  | cons w rest ih =>
    intro i acc
    by_cases hw : w = 1
    · simp [packLoop, chunkByte, hw, ih, Nat.one_shiftLeft, Nat.lor_assoc]
    · simp [packLoop, chunkByte, hw, ih, Nat.zero_or]

/-- The spec-side packed byte of a chunk starting at bit `i` fits below
bit `i + length`. -/
theorem chunkByte_lt (ws : List Int) :
    ∀ i : Nat, chunkByte i ws < 2 ^ (i + ws.length) := by
  induction ws with
  | nil => intro i; simp [chunkByte, Nat.pos_pow_of_pos]
  | cons w rest ih =>
    intro i
    have h1 : (if w = 1 then 2 ^ i else 0) < 2 ^ (i + (rest.length + 1)) := by
      split
      · exact Nat.pow_lt_pow_right (by norm_num) (by omega)
      · exact Nat.pos_pow_of_pos _ (by norm_num)
    have h2 : chunkByte (i + 1) rest < 2 ^ (i + (rest.length + 1)) := by
      have := ih (i + 1)
      have heq : i + 1 + rest.length = i + (rest.length + 1) := by omega
      rwa [heq] at this
    simpa [chunkByte] using Nat.or_lt_two_pow h1 h2

/-- For a non-empty tensor of at most 8 elements the spec-side packed
body is a single byte. -/
theorem specPackBytes_single (ws : List Int) (hne : ws ≠ [])
    (h8 : ws.length ≤ 8) : specPackBytes ws = [chunkByte 0 ws] := by
  cases ws with
  | nil => exact absurd rfl hne
  | cons w rest =>
    have hlen : rest.length ≤ 7 := by
      simpa [Nat.succ_le_succ_iff] using h8
    simp [specPackBytes, specPackAux, List.take_of_length_le hlen,
      List.drop_eq_nil_of_le hlen]

/-- `struct.pack` for unsigned fields succeeds on in-range values. -/
theorem packUInt_eq (w n : Nat) (h : n < 2 ^ (8 * w)) :
    packUInt w n = some (leBytes w n) := if_pos h

/-- `struct.pack("<i", ·)` succeeds on in-range values. -/
theorem packInt32_eq (i : Int) (h : -(2 ^ 31) ≤ i ∧ i < 2 ^ 31) :
    packInt32 i = some (int32LE i) := if_pos h

/-- A one-byte unsigned field is the value itself when it fits. -/
theorem leBytes_one (n : Nat) (h : n < 256) : leBytes 1 n = [n] := by
  simp [leBytes, Nat.mod_eq_of_lt h]

/-- The writer serializes one metadata entry exactly as the spec layout
describes, whenever the key and value fit their length fields. -/
theorem writeMetaEntry_eq (k : String) (v : GGUFValue)
    (hk : (strBytes k.data).length < 2 ^ 64) (hv : valOk v = true) :
    writeMetaEntry k v = some (specMetaEntry k v) := by
  cases v with
  | vInt i =>
    have hrange : -(2 ^ 31) ≤ i ∧ i < 2 ^ 31 := by
      simpa [valOk, Bool.and_eq_true, decide_eq_true_eq] using hv
    simp [writeMetaEntry, specMetaEntry, packUInt_eq 8 _ hk, packInt32_eq i hrange]
  | vStr s =>
    have hs : (strBytes s.data).length < 2 ^ 64 := by
      simpa [valOk, decide_eq_true_eq] using hv
    simp [writeMetaEntry, specMetaEntry, packUInt_eq 8 _ hk, packUInt_eq 8 _ hs]

/-- The writer serializes the metadata section exactly as the spec
layout describes. -/
theorem writeMetadata_eq (md : List (String × GGUFValue))
    (h : ∀ p ∈ md, (strBytes p.1.data).length < 2 ^ 64 ∧ valOk p.2 = true) :
    writeMetadata md = some (bytesConcat (md.map fun p => specMetaEntry p.1 p.2)) := by
  induction md with
  | nil => rfl
  | cons p rest ih =>
    have hp := h p (by simp)
    have hrest := ih (fun q hq => h q (by simp [hq]))
    simp [writeMetadata, writeMetaEntry_eq p.1 p.2 hp.1 hp.2, hrest, bytesConcat]

/-- The writer serializes one tensor record exactly as the spec layout
describes, for the 1-to-8-element tensors it can represent. -/
theorem writeTensor_eq (n : String) (ws : List Int)
    (hn : (strBytes n.data).length < 2 ^ 64)
    (hne : ws ≠ []) (h8 : ws.length ≤ 8) :
    writeTensor n ws = some (specTensorEntry n ws) := by
  have hpack : packLoop 0 0 ws = chunkByte 0 ws := by
    rw [packLoop_eq_lor, Nat.zero_or]
  have hlt : chunkByte 0 ws < 2 ^ 8 := by
    have := chunkByte_lt ws 0
    calc chunkByte 0 ws < 2 ^ (0 + ws.length) := this
      _ ≤ 2 ^ 8 := Nat.pow_le_pow_right (by norm_num) (by omega)
  have h2 : packUInt 1 (packLoop 0 0 ws) = some [chunkByte 0 ws] := by
    rw [hpack, packUInt_eq 1 _ hlt, leBytes_one _ hlt]
  simp [writeTensor, specTensorEntry, packUInt_eq 8 _ hn, h2,
    specPackBytes_single ws hne h8]

/-- The writer serializes the tensor section exactly as the spec layout
describes, for 1-to-8-element tensors. -/
theorem writeTensors_eq (ts : List (String × List Int))
    (h : ∀ p ∈ ts, (strBytes p.1.data).length < 2 ^ 64 ∧ p.2 ≠ [] ∧ p.2.length ≤ 8) :
    writeTensors ts = some (bytesConcat (ts.map fun p => specTensorEntry p.1 p.2)) := by
  induction ts with
  | nil => rfl
  | cons p rest ih =>
    have hp := h p (by simp)
    have hrest := ih (fun q hq => h q (by simp [hq]))
    simp [writeTensors, writeTensor_eq p.1 p.2 hp.1 hp.2.1 hp.2.2, hrest, bytesConcat]

/-- Master correctness of the writer: under the value-range conditions
`struct.pack` needs (and no condition at all on the keys and names
beyond their length fields), the produced file is exactly the spec
layout, and the statistics are the byte count, tensor count and
metadata-entry count. -/
theorem writeModel_spec (md : List (String × GGUFValue)) (ts : List (String × List Int))
    (hmd : ∀ p ∈ md, (strBytes p.1.data).length < 2 ^ 64 ∧ valOk p.2 = true)
    (hts : ∀ p ∈ ts, (strBytes p.1.data).length < 2 ^ 64 ∧ p.2 ≠ [] ∧ p.2.length ≤ 8)
    (hmc : md.length < 2 ^ 64) (htc : ts.length < 2 ^ 64) :
    writeModel md ts =
      some (specLayout md ts,
        ⟨(specLayout md ts).length, ts.length, md.length⟩) := by
  simp [writeModel, packUInt_eq 8 _ hmc, packUInt_eq 8 _ htc,
    writeMetadata_eq md hmd, writeTensors_eq ts hts, specLayout]

/-! ## The claims -/

/-- C1: for every metadata map and tensor map satisfying the writer
preconditions, the writer produces exactly the described byte sequence
and nothing more — 4-byte format tag, 4-byte unsigned version, 8-byte
unsigned tensor count, 8-byte unsigned metadata-entry count, then each
metadata entry in input order as an 8-byte key length, the raw UTF-8 key
bytes, a 4-byte type tag (4 = signed 32-bit integer, 8 = string) and
either a 4-byte signed integer or an 8-byte length plus raw UTF-8 string
bytes, all little-endian — followed by the tensor records the same
format carries (`specLayout` lists the sections in order); and the
returned statistics are exactly the byte count written, the tensor
count, and the metadata-entry count. -/
theorem gguf_writer_layout (md : List (String × GGUFValue))
    (ts : List (String × List Int)) (h : Preconds md ts) :
    writeModel md ts =
      some (specLayout md ts,
        ⟨(specLayout md ts).length, ts.length, md.length⟩) := by
  obtain ⟨-, -, hmd, -, -, hts, hmc, htc⟩ := h
  refine writeModel_spec md ts
    (fun p hp => ⟨(hmd p hp).2.1, (hmd p hp).2.2⟩)
    (fun p hp => ⟨(hts p hp).2.1, ?_, le_of_eq (hts p hp).2.2⟩) hmc htc
  have h8 := (hts p hp).2.2
  intro hnil
  rw [hnil] at h8
  simp at h8

/-- Witness for C1 at a concrete one-entry metadata map and the `embed`
tensor. -/
theorem gguf_writer_layout_witness :
    Preconds [("general.architecture", GGUFValue.vStr "catseek")]
        [("embed", [1, -1, 1, -1, 1, -1, 1, -1])] ∧
      writeModel [("general.architecture", GGUFValue.vStr "catseek")]
          [("embed", [1, -1, 1, -1, 1, -1, 1, -1])] =
        some (specLayout [("general.architecture", GGUFValue.vStr "catseek")]
            [("embed", [1, -1, 1, -1, 1, -1, 1, -1])],
          ⟨(specLayout [("general.architecture", GGUFValue.vStr "catseek")]
              [("embed", [1, -1, 1, -1, 1, -1, 1, -1])]).length, 1, 1⟩) :=
  ⟨by decide, gguf_writer_layout _ _ (by decide)⟩

/-- C2 counterexample: the claim generalizes the packing to one packed
byte per 8 (or fewer) elements, so a 9-element tensor would need two
packed bytes; the source packs the whole tensor into a single byte
(failing outright if any `+1` sits at index 8 or above), so on the
tensor `("t", [-1] * 9)` the writer emits one data byte where the
claimed layout has two. -/
theorem tensor_packing_counterexample :
    writeTensors [("t", List.replicate 9 (-1 : Int))] =
        some [1, 0, 0, 0, 0, 0, 0, 0, 116, 0] ∧
      bytesConcat ([("t", List.replicate 9 (-1 : Int))].map
          fun p => specTensorEntry p.1 p.2) =
        [1, 0, 0, 0, 0, 0, 0, 0, 116, 0, 0] ∧
      writeTensors [("t", List.replicate 9 (-1 : Int))] ≠
        some (bytesConcat ([("t", List.replicate 9 (-1 : Int))].map
          fun p => specTensorEntry p.1 p.2)) := by
  decide

/-- C2 amended: for each tensor of 1 to 8 elements, in input order, the
writer emits an 8-byte name length, the raw UTF-8 name bytes, then one
packed byte in which bit `i` is set iff element `i` equals `+1`, bit 0
least significant (`specTensorEntry`); tensors longer than 8 elements
are not chunked into additional packed bytes by the source — a `+1`
beyond index 7 makes the write fail, and `-1` entries beyond index 7
are silently absorbed into the single byte. -/
theorem tensor_section_packed (ts : List (String × List Int))
    (h : ∀ p ∈ ts, (strBytes p.1.data).length < 2 ^ 64 ∧ p.2 ≠ [] ∧ p.2.length ≤ 8) :
    writeTensors ts =
      some (bytesConcat (ts.map fun p => specTensorEntry p.1 p.2)) :=
  writeTensors_eq ts h

/-- Witness for C2 (amended) at the tensor
`{"embed": [1, -1, 1, -1, 1, -1, 1, -1]}`: the packed byte is
`0b01010101` = 85, after the 8-byte name length and the name bytes. -/
theorem tensor_section_packed_witness :
    writeTensors [("embed", [1, -1, 1, -1, 1, -1, 1, -1])] =
      some [5, 0, 0, 0, 0, 0, 0, 0, 101, 109, 98, 101, 100, 85] := by
  have h := tensor_section_packed [("embed", [1, -1, 1, -1, 1, -1, 1, -1])]
    (by decide)
  rw [h]; rfl

/-- C3 counterexample: the source performs no validation at all.  On an
input whose two tensor names are both empty (hence empty and duplicated
within their set), the writer succeeds and writes a complete 59-byte
file instead of failing with a validation error before writing. -/
theorem writer_validation_counterexample :
    (writeModel [("k", GGUFValue.vInt 1)]
        [("", [1, -1, 1, -1, 1, -1, 1, -1]), ("", [1, 1, 1, 1, 1, 1, 1, 1])]).isSome
        = true ∧
      (writeModel [("k", GGUFValue.vInt 1)]
          [("", [1, -1, 1, -1, 1, -1, 1, -1]), ("", [1, 1, 1, 1, 1, 1, 1, 1])]).map
          (fun r => r.1.length) = some 59 := by
  decide

/-- C3 amended: the writer performs no validation of keys or names —
inputs with empty or duplicated metadata keys or tensor names are
serialized normally into the standard layout (an empty name becomes an
8-byte zero length field with no name bytes), with no name or key
condition whatsoever among the hypotheses; a metadata value whose type
tag matches neither supported kind cannot occur, because the source
tags every non-integer value as a string at serialization time. -/
theorem writer_no_validation (md : List (String × GGUFValue))
    (ts : List (String × List Int))
    (hmd : ∀ p ∈ md, (strBytes p.1.data).length < 2 ^ 64 ∧ valOk p.2 = true)
    (hts : ∀ p ∈ ts, (strBytes p.1.data).length < 2 ^ 64 ∧ p.2 ≠ [] ∧ p.2.length ≤ 8)
    (hmc : md.length < 2 ^ 64) (htc : ts.length < 2 ^ 64) :
    writeModel md ts =
      some (specLayout md ts,
        ⟨(specLayout md ts).length, ts.length, md.length⟩) :=
  writeModel_spec md ts hmd hts hmc htc

/-- Witness for C3 (amended): the empty-and-duplicated tensor names of
the counterexample input are serialized into the standard layout. -/
theorem writer_no_validation_witness :
    writeModel [("k", GGUFValue.vInt 1)]
        [("", [1, -1, 1, -1, 1, -1, 1, -1]), ("", [1, 1, 1, 1, 1, 1, 1, 1])] =
      some (specLayout [("k", GGUFValue.vInt 1)]
          [("", [1, -1, 1, -1, 1, -1, 1, -1]), ("", [1, 1, 1, 1, 1, 1, 1, 1])],
        ⟨(specLayout [("k", GGUFValue.vInt 1)]
            [("", [1, -1, 1, -1, 1, -1, 1, -1]),
             ("", [1, 1, 1, 1, 1, 1, 1, 1])]).length, 2, 1⟩) :=
  writer_no_validation _ _ (by decide) (by decide) (by decide) (by decide)

/-- C4 counterexample: on a fresh engine, `generate("hi")` leaves the
token counter at 1 (Python `"hi".split()` has one token, not two) and
returns mode 0 (the source returns `self.bit_state ^ 1` after the flip,
i.e. the pre-flip mode), contradicting the claimed counter value 2 and
returned mode 1. -/
theorem generate_scenario_counterexample :
    ((generate initModel "hi".data).map fun r => (r.model.token_count, r.retMode))
        = some (1, 0) ∧
      ((generate initModel "hi".data).map fun r => (r.model.token_count, r.retMode))
        ≠ some (2, 1) := by
  decide

/-- C4 amended: on a fresh engine, `generate("hi")` selects with
pre-flip mode 0 (the response is the analytical pool entry at index
`len("hi") % 5 = 2`), makes the token counter 1, and returns mode 0; a
subsequent `generate("go")` selects using mode 1 (the action pool entry
at index 2), makes the token counter 2, and returns mode 1. -/
theorem generate_scenario_amended :
    ((generate initModel "hi".data).bind fun r1 =>
        (generate r1.model "go".data).map fun r2 =>
          (r1.response, r1.model.token_count, r1.retMode,
           r2.response, r2.model.token_count, r2.retMode)) =
      some ("Here\x27s the logical approach: 🧠", 1, 0,
        "Optimized solution incoming. 🎯", 2, 1) := by
  decide

/-- C5: for every valid engine state and every input text, `generate`
increments the token counter by the whitespace-split token count,
selects the response at index `len(text) % poolSize` from the pool
indexed by the current (pre-flip) mode, flips the mode, and returns the
selected response, the pre-flip mode, and the first 8 elements of the
quantized input (fewer if the input is shorter); in particular the empty
string is handled without failure. -/
theorem generate_spec (m : Model) (t : List Char) (h : ValidModel m) :
    generate m t = some
      ⟨(poolOf m.bit_state).getD (t.length % (poolOf m.bit_state).length) "",
       m.bit_state,
       (quantize_input t).take 8,
       { m with token_count := m.token_count + splitCount t,
                bit_state := m.bit_state ^^^ 1 }⟩ :=
  generate_valid m t h

/-- Witness for C5 on the empty string (which must not raise): the
token counter gains 0, the quantized preview is empty, pool 0 entry 0
is selected, and the mode flips to 1. -/
theorem generate_spec_witness :
    ValidModel initModel ∧
      generate initModel [] = some
        ⟨"Let me analyze that systematically. 🔍", 0, [],
         { bit_state := 1, token_count := 0,
           weights := initWeights, responses := initResponses }⟩ :=
  ⟨⟨rfl, rfl, Or.inl rfl⟩, by
    have h := generate_spec initModel [] ⟨rfl, rfl, Or.inl rfl⟩
    rw [h]; rfl⟩

/-- C6: `quantize_input` preserves length and maps character `j` to
`+1` exactly when its code point is odd, `-1` otherwise, preserving
input order (and, being a plain function of the text, it is pure). -/
theorem quantize_input_spec (t : List Char) :
    (quantize_input t).length = t.length ∧
      ∀ (j : Nat) (c : Char), t.get? j = some c →
        (quantize_input t).get? j =
          some (if c.toNat % 2 = 1 then 1 else -1) := by
  constructor
  · simp [quantize_input]
  · intro j c hc
    have hiff : (if c.toNat % 2 ≠ 0 then (1 : Int) else -1) =
        (if c.toNat % 2 = 1 then 1 else -1) := by
      rcases Nat.mod_two_eq_zero_or_one c.toNat with h | h <;> simp [h]
    rw [quantize_input, List.get?_map, hc]
    simp [hiff]

/-- Witness for C6 at `"hi"`: length 2, position 1 holds `+1` because
the code point of `i` (105) is odd. -/
theorem quantize_input_spec_witness :
    (quantize_input "hi".data).length = 2 ∧
      (quantize_input "hi".data).get? 1 = some 1 := by
  refine ⟨(quantize_input_spec "hi".data).1, ?_⟩
  have h := (quantize_input_spec "hi".data).2 1 'i' (by decide)
  rw [h]; rfl

/-- C7: on quantized inputs drawn from {+1, -1}, the forward pass is
deterministic — it depends only on the input sequence and the weight
tensors, so two states with equal weights produce the same bit — and
the produced bit is always 0 or 1. -/
theorem forward_pass_bit (m m' : Model) (q : List Int) (b : Int)
    (hw : m.weights = m'.weights)
    (hq : ∀ x ∈ q, x = 1 ∨ x = -1)
    (hb : forward_pass m q = some b) :
    forward_pass m' q = some b ∧ (b = 0 ∨ b = 1) := by
  constructor
  · rw [forward_pass, ← hw]; exact hb
  · obtain ⟨a, ha⟩ := fpLoop_emod m.weights q 0 0 b
      (by simpa [forward_pass] using hb)
    have h1 : 0 ≤ Int.emod a 2 := Int.emod_nonneg a (by norm_num)
    have h2 : Int.emod a 2 < 2 := Int.emod_lt_of_pos a (by norm_num)
    rw [ha]
    omega

/-- Witness for C7 on the quantized input `[1, -1]` in the fresh
state. -/
theorem forward_pass_bit_witness :
    forward_pass initModel [1, -1] = some 0 ∧ ((0 : Int) = 0 ∨ (0 : Int) = 1) :=
  forward_pass_bit initModel initModel [1, -1] 0 rfl (by decide) (by decide)

/-- C8: from every valid engine state, `generate` succeeds (no terminal
state) and moves the mode to its complement `1 - mode` (so it strictly
alternates 0, 1, 0, ... and stays in {0, 1}); the reset operation sets
the mode to 0 and the token counter to 0. -/
theorem mode_alternation (m : Model) (t : List Char) (h : ValidModel m) :
    ((generate m t).map fun r => r.model.bit_state) = some (1 - m.bit_state) ∧
      (generate m t).isSome = true ∧
      (1 - m.bit_state = 0 ∨ 1 - m.bit_state = 1) ∧
      (resetModel m).bit_state = 0 ∧ (resetModel m).token_count = 0 := by
  have hg := generate_valid m t h
  obtain ⟨-, -, hb⟩ := h
  refine ⟨?_, by rw [hg]; rfl, by omega, rfl, rfl⟩
  rw [hg]
  rcases hb with hb | hb <;> rw [hb] <;> rfl

/-- Witness for C8 on the fresh engine and input `"go"`: the mode after
the call is 1 = 1 - 0. -/
theorem mode_alternation_witness :
    ValidModel initModel ∧
      ((generate initModel "go".data).map fun r => r.model.bit_state) = some 1 ∧
      (generate initModel "go".data).isSome = true ∧
      (resetModel initModel).bit_state = 0 ∧
      (resetModel initModel).token_count = 0 := by
  have h := mode_alternation initModel "go".data ⟨rfl, rfl, Or.inl rfl⟩
  exact ⟨⟨rfl, rfl, Or.inl rfl⟩, by simpa using h.1, h.2.1, h.2.2.2⟩

/-- C9: export never mutates the engine state — the state alongside the
result of `export_gguf` is the input state — and a repeated call from
that state yields the same bytes. -/
theorem export_frame (m : Model) (h : (export_gguf m).isSome = true) :
    ((export_gguf m).map fun r => r.2.2) = some m ∧
      ((export_gguf m).bind fun r => (export_gguf r.2.2).map fun r2 => r2.1) =
        ((export_gguf m).map fun r => r.1) := by
  rcases hw : writeModel catseekMetadata m.weights with _ | p
  · rw [export_gguf, hw] at h
    simp at h
  · simp [export_gguf, hw]

/-- Witness for C9 on the fresh engine. -/
theorem export_frame_witness :
    (export_gguf initModel).isSome = true ∧
      (((export_gguf initModel).map fun r => r.2.2) = some initModel ∧
        ((export_gguf initModel).bind fun r =>
            (export_gguf r.2.2).map fun r2 => r2.1) =
          ((export_gguf initModel).map fun r => r.1)) :=
  ⟨rfl, export_frame initModel rfl⟩

/-- C10: for every engine state and any two input texts of equal
length, `generate` yields the same response text and the same returned
mode — selection and the returned mode depend only on the length of the
input and the current mode, never on the characters. -/
theorem generate_length_only (m : Model) (t1 t2 : List Char)
    (h : t1.length = t2.length) :
    ((generate m t1).map fun r => (r.response, r.retMode)) =
      ((generate m t2).map fun r => (r.response, r.retMode)) := by
  have hq : (quantize_input t1).length = (quantize_input t2).length := by
    simp [quantize_input, h]
  simp only [generate, forward_pass]
  rcases h1 : fpLoop m.weights 0 0 (quantize_input t1) with _ | b1
  · rcases h2 : fpLoop m.weights 0 0 (quantize_input t2) with _ | b2
    · simp
    · have hs := fpLoop_isSome_congr m.weights (quantize_input t1)
        (quantize_input t2) 0 0 0 hq
      rw [h1, h2] at hs
      simp at hs
  · have hs := fpLoop_isSome_congr m.weights (quantize_input t1)
      (quantize_input t2) 0 0 0 hq
    rw [h1] at hs
    obtain ⟨b2, h2⟩ := Option.isSome_iff_exists.mp (by rw [← hs]; rfl)
    rw [h2]
    rcases hlk : m.responses.lookup m.bit_state with _ | pool
    · simp
    · rw [h]
      rcases hE : pool[t2.length % pool.length]? with _ | resp <;>
        simp [List.get?_eq_getElem?, hE]

/-- Witness for C10: two distinct texts of equal length give the same
response and returned mode on the fresh engine. -/
theorem generate_length_only_witness :
    ("ab".data.length = "cd".data.length) ∧
      ((generate initModel "ab".data).map fun r => (r.response, r.retMode)) =
        ((generate initModel "cd".data).map fun r => (r.response, r.retMode)) :=
  ⟨rfl, generate_length_only initModel "ab".data "cd".data rfl⟩

end CatSeek
